import Mathlib

/-!
Verification of the bible-mcp reference-resolution and token-assembly core.

The development shallowly embeds `src/utils/referenceUtils.ts` and the
token-based database module (`assembleTextFromTokens`, `getEnglishText`,
`getPassage`, `searchText`).  JavaScript strings are modelled as `List Char`
(wrapped in `String` at the interfaces), JavaScript `Map` objects as
insertion-ordered association lists, and the SQLite row store as a list of
rows with the SQL `WHERE`/`ORDER BY`/`DISTINCT` clauses made explicit.
-/

namespace BibleMCP

/-! ### Character and string helpers (ASCII model of the JS operations used) -/

/-- ASCII lower-casing of one character, modelling `String.prototype.toLowerCase`
and the case-folding done by a case-insensitive regex on the ASCII book names. -/
def charLower (c : Char) : Char :=
  if 'A' ≤ c ∧ c ≤ 'Z' then Char.ofNat (c.toNat + 32) else c

/-- `\d` on ASCII. -/
def isDigitChar (c : Char) : Bool :=
  decide ('0' ≤ c ∧ c ≤ '9')

/-- `\s` restricted to the whitespace characters that occur in citations. -/
def isSpaceChar (c : Char) : Bool :=
  decide (c = ' ' ∨ c = '\t' ∨ c = '\n' ∨ c = '\r')

/-- Lower-case a character list. -/
def lowerChars (cs : List Char) : List Char := cs.map charLower

/-- `s.toLowerCase()` on the `String` wrapper. -/
def lowerStr (s : String) : String := String.mk (lowerChars s.data)

/-- `s.replace(/\./g, '')`: drop every period. -/
def stripDots (s : String) : String := String.mk (s.data.filter (fun c => c ≠ '.'))

/-- `a.startsWith(b)` on JavaScript strings. -/
def strStartsWith (s p : String) : Bool :=
  decide (s.data.take p.data.length = p.data)

/-- `String.prototype.trim()`: strip leading and trailing whitespace. -/
def trimChars (cs : List Char) : List Char :=
  ((cs.dropWhile isSpaceChar).reverse.dropWhile isSpaceChar).reverse

/-- Numeric value of a decimal digit list, as done by `parseInt` on a digit run. -/
def digitsToNat (ds : List Char) : Nat :=
  ds.foldl (fun a c => 10 * a + (c.toNat - '0'.toNat)) 0

/-- `parseInt(s, 10)`: skip leading whitespace, optional sign, then the maximal
digit run; `none` models `NaN` (no digits found). -/
def jsParseInt (cs : List Char) : Option Int :=
  let cs := cs.dropWhile isSpaceChar
  match cs with
  | '-' :: rest =>
      let ds := rest.takeWhile isDigitChar
      if ds.isEmpty then none else some (-(digitsToNat ds : Int))
  | '+' :: rest =>
      let ds := rest.takeWhile isDigitChar
      if ds.isEmpty then none else some ((digitsToNat ds : Int))
  | _ =>
      let ds := cs.takeWhile isDigitChar
      if ds.isEmpty then none else some ((digitsToNat ds : Int))

/-- Decimal digits of `n`, most significant first (`Number.prototype.toString`).
The first argument is structural fuel; `n + 1` units always suffice. -/
def natToCharsAux : Nat → Nat → List Char
  | 0, _ => []
  | fuel + 1, n =>
    if n < 10 then [Nat.digitChar n]
    else natToCharsAux fuel (n / 10) ++ [Nat.digitChar (n % 10)]

/-- `n.toString()` for a natural number. -/
def natToChars (n : Nat) : List Char := natToCharsAux (n + 1) n

/-- `n.toString()` wrapped as a `String`. -/
def natToStr (n : Nat) : String := String.mk (natToChars n)

/-- `n.toString().padStart(3, '0')`. -/
def pad3 (n : Nat) : List Char :=
  List.replicate (3 - (natToChars n).length) '0' ++ natToChars n

/-! ### Insertion-ordered maps (JavaScript `Map`) -/

/-- `Map.prototype.set`: overwrite the value in place if the key exists
(preserving its iteration position), otherwise append the new entry. -/
def mapSet {α : Type} (m : List (String × α)) (k : String) (v : α) :
    List (String × α) :=
  match m with
  | [] => [(k, v)]
  | (k', v') :: rest =>
    if k' = k then (k, v) :: rest else (k', v') :: mapSet rest k v

/-- `Map.prototype.get`. -/
def mapGet {α : Type} (m : List (String × α)) (k : String) : Option α :=
  match m with
  | [] => none
  | (k', v) :: rest => if k' = k then some v else mapGet rest k

/-! ### Stable insertion sort (model of the stable `Array.prototype.sort`) -/

/-- Insert `a` before the first element `b` with `le a b`; later elements that
compare equal stay after `a`, which gives the stability of the JS sort. -/
def insertSorted {α : Type} (le : α → α → Bool) (a : α) : List α → List α
  | [] => [a]
  | b :: l => if le a b then a :: b :: l else b :: insertSorted le a l

/-- Stable insertion sort with respect to the boolean relation `le`. -/
def insSort {α : Type} (le : α → α → Bool) : List α → List α
  | [] => []
  | a :: l => insertSorted le a (insSort le l)

/-! ### The catalog (`BibleLookup.json` rows) and derived lookup structures -/

/-- One row of the book catalog: ordinal id, canonical name, abbreviations,
testament tag, OSIS id and the chapter → max-verse map (JSON object keys are
decimal strings of the chapter numbers, modelled here by the numbers). -/
structure Book where
  ord : String
  name : String
  abbreviations : List String
  testament : String
  osisId : String
  chapters : List (Nat × Nat)
  deriving DecidableEq, Repr

/-- Lookup `chapters[chapter.toString()]` (`hasOwnProperty` + read). -/
def chLookup : List (Nat × Nat) → Nat → Option Nat
  | [], _ => none
  | (c, mv) :: rest, c' => if c = c' then some mv else chLookup rest c'

/-- `bookNumberMap`: built by `bookNumberMap.set(book.ord, book)` per book. -/
def bookNumberMapOf (bible : List Book) : List (String × Book) :=
  bible.foldl (fun m book => mapSet m book.ord book) []

/-- The `bookNameMap` insertions made for one book: the lower-cased canonical
name, then for each abbreviation its lower-casing and its lower-casing with
periods stripped. -/
def addNameKeys (m : List (String × Book)) (book : Book) : List (String × Book) :=
  book.abbreviations.foldl
    (fun m abbr => mapSet (mapSet m (lowerStr abbr) book) (stripDots (lowerStr abbr)) book)
    (mapSet m (lowerStr book.name) book)

/-- `bookNameMap`: names and abbreviations (and stripped variants) to books. -/
def bookNameMapOf (bible : List Book) : List (String × Book) :=
  bible.foldl addNameKeys []

/-- The pushes into `bookPatterns`: per book the canonical name then each
abbreviation.  The source escapes regex metacharacters before pushing, which
makes each alternative a literal; the embedding keeps the raw string and the
matcher below matches it literally. -/
def bookPatternsRaw (bible : List Book) : List String :=
  bible.flatMap (fun b => b.name :: b.abbreviations)

/-- `bookPatterns` after `bookPatterns.sort((a, b) => b.length - a.length)`:
stable sort, longest alternative first. -/
def bookPatternsOf (bible : List Book) : List String :=
  insSort (fun a b => decide (b.length ≤ a.length)) (bookPatternsRaw bible)

/-! ### The citation regex

`verseRegex` is
`(\d+\s+)?(P1|P2|...)\s+(\d+)(?:\s*:\s*(\d+)(?:\s*-\s*(\d+))?)?` with the `i`
flag, where `P1, P2, ...` are the escaped book alternatives in
`bookPatterns` order.  The matcher below reproduces the backtracking engine
on this shape:

* `\d+` inside the optional prefix group never gives digits back usefully:
  after surrendering a digit the next character is still a digit, so the
  mandatory `\s+` that follows fails; only the full digit run is viable.
* `\s+` after the prefix digits backtracks from the full whitespace run down
  to a single character (`tryPfxLens`).
* the book alternation tries the alternatives in pattern order, and on a
  failure of the remainder of the regex moves on to the next alternative.
* `\s+` and `(\d+)` before the chapter cannot usefully give characters back
  either (the follower would see the surrendered character class again), so
  full runs are taken; the two optional verse groups match greedily and
  otherwise match empty.
-/

/-- Captures of a successful match: the optional prefix-group text
(`match[1]`), the matched book text (`match[2]`), chapter, and the optional
verse and end-verse captures. -/
structure RegexMatch where
  pfx : Option (List Char)
  bookText : List Char
  chapter : Nat
  verse : Option Nat
  endVerse : Option Nat
  deriving DecidableEq, Repr

/-- `(?:\s*-\s*(\d+))?` at the front of `cs`. -/
def matchDashGroup (cs : List Char) : Option Nat :=
  let cs1 := cs.dropWhile isSpaceChar
  match cs1 with
  | '-' :: cs2 =>
      let ds := (cs2.dropWhile isSpaceChar).takeWhile isDigitChar
      if ds.isEmpty then none else some (digitsToNat ds)
  | _ => none

/-- `(?:\s*:\s*(\d+)(?:\s*-\s*(\d+))?)?` at the front of `cs`. -/
def matchVerseGroup (cs : List Char) : Option (Nat × Option Nat) :=
  let cs1 := cs.dropWhile isSpaceChar
  match cs1 with
  | ':' :: cs2 =>
      let cs3 := cs2.dropWhile isSpaceChar
      let ds := cs3.takeWhile isDigitChar
      if ds.isEmpty then none
      else some (digitsToNat ds, matchDashGroup (cs3.drop ds.length))
  | _ => none

/-- `\s+(\d+)(?:\s*:\s*(\d+)(?:\s*-\s*(\d+))?)?` at the front of `cs`. -/
def matchTail (cs : List Char) : Option (Nat × Option Nat × Option Nat) :=
  let ws := cs.takeWhile isSpaceChar
  if ws.isEmpty then none
  else
    let cs1 := cs.drop ws.length
    let ds := cs1.takeWhile isDigitChar
    if ds.isEmpty then none
    else
      let chapter := digitsToNat ds
      match matchVerseGroup (cs1.drop ds.length) with
      | some (v, e) => some (chapter, some v, e)
      | none => some (chapter, none, none)

/-- Case-insensitive literal prefix test of a pattern against the text. -/
def startsWithCI : List Char → List Char → Bool
  | [], _ => true
  | _ :: _, [] => false
  | p :: ps, c :: cs => charLower p = charLower c && startsWithCI ps cs

/-- Try the book alternatives in order at the front of `cs`; on success of an
alternative the rest of the regex must also match, otherwise the next
alternative is tried (regex backtracking).  Returns the matched text slice and
the tail captures. -/
def tryBookAlts (pats : List (List Char)) (cs : List Char) :
    Option (List Char × Nat × Option Nat × Option Nat) :=
  match pats with
  | [] => none
  | p :: rest =>
    if startsWithCI p cs then
      match matchTail (cs.drop p.length) with
      | some r => some (cs.take p.length, r)
      | none => tryBookAlts rest cs
    else tryBookAlts rest cs

/-- With the prefix digits `ds` fixed, try the whitespace run of the prefix
group at length `k, k-1, ..., 1` (greedy `\s+` with backtracking);
`afterD` is the text right after the digits. -/
def tryPfxLens (pats : List (List Char)) (ds afterD : List Char) :
    Nat → Option RegexMatch
  | 0 => none
  | k + 1 =>
    match tryBookAlts pats (afterD.drop (k + 1)) with
    | some (slice, c, v, e) => some ⟨some (ds ++ afterD.take (k + 1)), slice, c, v, e⟩
    | none => tryPfxLens pats ds afterD k

/-- Try the whole regex anchored at the front of `cs`: first with the optional
prefix group present (greedy), then with it absent. -/
def matchHere (pats : List (List Char)) (cs : List Char) : Option RegexMatch :=
  let ds := cs.takeWhile isDigitChar
  let afterD := cs.drop ds.length
  let ws := afterD.takeWhile isSpaceChar
  let withPfx := if ds.isEmpty then none else tryPfxLens pats ds afterD ws.length
  match withPfx with
  | some m => some m
  | none =>
    match tryBookAlts pats cs with
    | some (slice, c, v, e) => some ⟨none, slice, c, v, e⟩
    | none => none

/-- `RegExp.prototype.exec`: try each start position left to right. -/
def execScan (pats : List (List Char)) : List Char → Option RegexMatch
  | [] => matchHere pats []
  | c :: cs =>
    match matchHere pats (c :: cs) with
    | some m => some m
    | none => execScan pats cs

/-! ### Structured references and the functions of `referenceUtils.ts` -/

/-- The `BibleReference` interface. -/
structure BibleReference where
  book : String
  bookId : String
  chapter : Nat
  verse : Option Nat := none
  endVerse : Option Nat := none
  testament : String
  osisId : String
  deriving DecidableEq, Repr

/-- Result of `parseVerseId`: chapter and verse come from `parseInt` on id
substrings, so they can be `NaN` (modelled by `none`) or negative. -/
structure ParsedVerseId where
  book : String
  bookId : String
  chapter : Option Int
  verse : Option Int
  testament : String
  osisId : String
  deriving DecidableEq, Repr

/-- `parseVerseId(id)`: fail if the id is falsy or shorter than 8 characters
or its first two characters are not a key of `bookNumberMap`; otherwise decode
`BBCCCVVV`. -/
def parseVerseId (bible : List Book) (id : String) : Option ParsedVerseId :=
  if id.length < 8 then none
  else
    let bookId := String.mk (id.data.take 2)
    match mapGet (bookNumberMapOf bible) bookId with
    | none => none
    | some bookData =>
      some
        { book := bookData.name
          bookId := bookId
          chapter := jsParseInt ((id.data.drop 2).take 3)
          verse := jsParseInt ((id.data.drop 5).take 3)
          testament := bookData.testament
          osisId := bookData.osisId }

/-- The fallback book lookup in `parseReference` (lines 136-143): iterate the
`bookNameMap` entries in insertion order and take the first key that is a
prefix of the candidate or has the candidate as a prefix. -/
def fallbackFind (m : List (String × Book)) (bookKey : String) : Option Book :=
  match m with
  | [] => none
  | (key, value) :: rest =>
    if strStartsWith bookKey key || strStartsWith key bookKey then some value
    else fallbackFind rest bookKey

/-- `parseReference(reference)`: run the regex on the trimmed input, reattach
the digit-prefix capture (nonempty, hence truthy, whenever the group matched),
look the lower-cased candidate up exactly, fall back to the approximate scan,
and populate verse/end-verse from the optional captures (a captured digit
string is always truthy, `"0"` included). -/
def parseReference (bible : List Book) (reference : String) : Option BibleReference :=
  match execScan ((bookPatternsOf bible).map String.data) (trimChars reference.data) with
  | none => none
  | some m =>
    let bookKey := String.mk (lowerChars ((m.pfx.getD []) ++ m.bookText))
    let found :=
      match mapGet (bookNameMapOf bible) bookKey with
      | some b => some b
      | none => fallbackFind (bookNameMapOf bible) bookKey
    match found with
    | none => none
    | some bookData =>
      some
        { book := bookData.name
          bookId := bookData.ord
          chapter := m.chapter
          verse := m.verse
          endVerse := m.endVerse
          testament := bookData.testament
          osisId := bookData.osisId }

/-- `isValidReference(reference)`: book ordinal known, chapter a key of the
chapter map, verse (when given) in `[1, maxVerse]`, end-verse (when given) in
`[1, maxVerse]` and not below the verse (`endVerse < verse!` is `false` in JS
when the verse is `undefined`). -/
def isValidReference (bible : List Book) (reference : BibleReference) : Bool :=
  match mapGet (bookNumberMapOf bible) reference.bookId with
  | none => false
  | some bookData =>
    match chLookup bookData.chapters reference.chapter with
    | none => false
    | some maxVerse =>
      (match reference.verse with
       | some v => !(v < 1 || v > maxVerse)
       | none => true) &&
      (match reference.endVerse with
       | some e =>
         !(e < 1 || e > maxVerse ||
           (match reference.verse with
            | some v => e < v
            | none => false))
       | none => true)

/-- `ref.verse || 1`: the verse if present and nonzero (`0` is falsy), else 1. -/
def jsVerseOrOne (verse : Option Nat) : Nat :=
  match verse with
  | some v => if v = 0 then 1 else v
  | none => 1

/-- `formatVerseId(ref)` as a character list: ordinal, then chapter and
`verse || 1` each zero-padded to 3 digits. -/
def formatVerseIdChars (ref : BibleReference) : List Char :=
  ref.bookId.data ++ pad3 ref.chapter ++ pad3 (jsVerseOrOne ref.verse)

/-- `formatVerseId(ref)`. -/
def formatVerseId (ref : BibleReference) : String :=
  String.mk (formatVerseIdChars ref)

/-! ### The token store and the database module

`english_tokens` rows, as read by the queries of the database module (the
unused `id` column is omitted).  The SQLite result sets are modelled by
filtering the row list with the `WHERE` clause, sorting by the `ORDER BY`
key (stably), and deduplicating for `DISTINCT`. -/

structure TokenRow where
  book_num : String
  book_name : String
  chapter : Nat
  verse : Nat
  word_position : Nat
  text : String
  skip_space_after : Bool
  exclude : Bool
  deriving DecidableEq, Repr

/-- The shape consumed by `assembleTextFromTokens`: `SELECT text,
skip_space_after` (the 0/1 column is already coerced to `Bool`, as the
source's `!!token.skip_space_after` does). -/
structure AToken where
  text : String
  skip_space_after : Bool
  deriving DecidableEq, Repr

def toAToken (r : TokenRow) : AToken := ⟨r.text, r.skip_space_after⟩

/-- `assembleTextFromTokens(tokens)`: the indexed `reduce` of the source —
append each token's text, followed by a single space unless the token's
skip-space flag is set or the token is the last one. -/
def assembleTextFromTokens (tokens : List AToken) : String :=
  tokens.enum.foldl
    (fun text p =>
      let token := p.2
      let skipSpace := token.skip_space_after
      let space := if skipSpace then "" else " "
      text ++ token.text ++ (if p.1 < tokens.length - 1 then space else ""))
    ""

/-- `WHERE book_num = ? AND chapter = ? AND verse = ?`. -/
def rowMatchesVerse (bookId : String) (chapter verse : Nat) (r : TokenRow) : Bool :=
  r.book_num = bookId && r.chapter = chapter && r.verse = verse

/-- `ORDER BY word_position`. -/
def sortByWordPosition (rows : List TokenRow) : List TokenRow :=
  insSort (fun a b => decide (a.word_position ≤ b.word_position)) rows

/-- The token query of `getEnglishText`: note that it carries no
`exclude = 0` condition. -/
def englishTokensRaw (db : List TokenRow) (bookId : String) (chapter verse : Nat) :
    List TokenRow :=
  sortByWordPosition (db.filter (rowMatchesVerse bookId chapter verse))

/-- The token query of `getPassage` and `searchText`:
`... AND exclude = 0 ORDER BY word_position`. -/
def englishTokensIncluded (db : List TokenRow) (bookId : String) (chapter verse : Nat) :
    List TokenRow :=
  sortByWordPosition
    (db.filter (fun r => rowMatchesVerse bookId chapter verse r && r.exclude = false))

/-- `getEnglishText(reference)`: falsy book id / chapter / verse short-circuit
to `null`; otherwise assemble the raw (unfiltered) ordered token list, with an
empty result set reported as `null`. -/
def getEnglishText (db : List TokenRow) (reference : BibleReference) : Option String :=
  if reference.bookId = "" ∨ reference.chapter = 0 ∨ reference.verse.getD 0 = 0 then none
  else
    let tokens := englishTokensRaw db reference.bookId reference.chapter (reference.verse.getD 0)
    if tokens.isEmpty then none
    else some (assembleTextFromTokens (tokens.map toAToken))

/-- First-occurrence deduplication (`SELECT DISTINCT`). -/
def dedupAux {α : Type} [DecidableEq α] (seen : List α) : List α → List α
  | [] => []
  | a :: l => if a ∈ seen then dedupAux seen l else a :: dedupAux (a :: seen) l

structure PassageVerse where
  text : String
  verse : Nat
  reference : String
  deriving DecidableEq, Repr

/-- `getPassage(reference)`: `verse || 1` and `endVerse || startVerse` bounds,
the distinct verse numbers in range (this first query has no `exclude`
condition), then per verse the assembled filtered tokens. -/
def getPassage (db : List TokenRow) (reference : BibleReference) : List PassageVerse :=
  let startVerse := jsVerseOrOne reference.verse
  let endVerse :=
    match reference.endVerse with
    | some e => if e = 0 then startVerse else e
    | none => startVerse
  let inRange :=
    db.filter (fun r =>
      r.book_num = reference.bookId && r.chapter = reference.chapter &&
        startVerse ≤ r.verse && r.verse ≤ endVerse)
  let verseNums := insSort (fun a b => decide (a ≤ b)) (dedupAux [] (inRange.map (·.verse)))
  verseNums.map (fun v =>
    { text := assembleTextFromTokens
        ((englishTokensIncluded db reference.bookId reference.chapter v).map toAToken)
      verse := v
      reference := reference.book ++ " " ++ natToStr reference.chapter ++ ":" ++ natToStr v })

/-- `CAST(s AS INTEGER)` in SQLite: optional leading whitespace and sign, then
the leading digit run; `0` when there are no digits. -/
def sqliteCastInt (s : String) : Int :=
  match s.data.dropWhile isSpaceChar with
  | '-' :: rest => -(digitsToNat (rest.takeWhile isDigitChar) : Int)
  | '+' :: rest => (digitsToNat (rest.takeWhile isDigitChar) : Int)
  | rest => (digitsToNat (rest.takeWhile isDigitChar) : Int)

/-- Case-insensitive substring containment: `text LIKE '%query%'` (SQLite
`LIKE` is case-insensitive on ASCII; a query containing the `LIKE`
metacharacters `%`/`_` is out of scope of this model). -/
def containsCI (q : List Char) : List Char → Bool
  | [] => startsWithCI q []
  | c :: cs => startsWithCI q (c :: cs) || containsCI q cs

/-- `≤` in the binary (memcmp-like) collation SQLite applies to `TEXT`. -/
def charsLe : List Char → List Char → Bool
  | [], _ => true
  | _ :: _, [] => false
  | a :: as, b :: bs => if a = b then charsLe as bs else decide (a < b)

/-- The `DISTINCT book_num, book_name, chapter, verse` tuples of the
verse-finding query of `searchText`. -/
structure VerseKey where
  book_num : String
  book_name : String
  chapter : Nat
  verse : Nat
  deriving DecidableEq, Repr

/-- `ORDER BY book_num, chapter, verse` (`book_num` as `TEXT`). -/
def keyLe (a b : VerseKey) : Bool :=
  if a.book_num = b.book_num then
    if a.chapter = b.chapter then decide (a.verse ≤ b.verse)
    else decide (a.chapter < b.chapter)
  else charsLe a.book_num.data b.book_num.data

structure SearchResult where
  text : String
  reference : String
  book : String
  chapter : Nat
  verse : Nat
  deriving DecidableEq, Repr

/-- `searchText(query, testament?, book?, limit)`: find the distinct verses
whose tokens match the conditions (`LIKE`, the testament book-number bounds,
the optional book filter, `exclude = 0`), ordered and limited, then assemble
each verse from its filtered tokens. -/
def searchText (db : List TokenRow) (query : String) (testament : Option String)
    (book : Option String) (limit : Nat) : List SearchResult :=
  let testOk : TokenRow → Bool :=
    match testament with
    | some t =>
      if t = "OT" then fun r => decide (sqliteCastInt r.book_num ≤ 39)
      else if t = "NT" then fun r => decide (40 ≤ sqliteCastInt r.book_num)
      else fun _ => true
    | none => fun _ => true
  let bookOk : TokenRow → Bool :=
    match book with
    | some b => if b = "" then fun _ => true else fun r => r.book_num = b
    | none => fun _ => true
  let rowOk : TokenRow → Bool := fun r =>
    containsCI query.data r.text.data && testOk r && bookOk r && r.exclude = false
  let keys :=
    dedupAux [] ((db.filter rowOk).map (fun r => VerseKey.mk r.book_num r.book_name r.chapter r.verse))
  let limited := (insSort keyLe keys).take limit
  limited.map (fun k =>
    { text := assembleTextFromTokens
        ((englishTokensIncluded db k.book_num k.chapter k.verse).map toAToken)
      reference := k.book_name ++ " " ++ natToStr k.chapter ++ ":" ++ natToStr k.verse
      book := k.book_name
      chapter := k.chapter
      verse := k.verse })

/-! ### A concrete catalog -/

/-- Modelled from the spec: the catalog data file `src/BibleLookup.json` that
`referenceUtils.ts` loads is not among the sources.  Following §3 and §4.1 of
the specification (per book: a 2-digit ordinal id, canonical name,
abbreviations which may include punctuation variants, testament tag, and a
chapter → max-verse mapping), this is a representative slice of the catalog in
canonical book order. -/
def bibleModel : List Book :=
  [ { ord := "01", name := "Genesis", abbreviations := ["Gen."], testament := "OT",
      osisId := "Gen", chapters := [(1, 31), (2, 25)] },
    { ord := "07", name := "Judges", abbreviations := [], testament := "OT",
      osisId := "Judg", chapters := [(1, 36)] },
    { ord := "43", name := "John", abbreviations := ["Jn"], testament := "NT",
      osisId := "John", chapters := [(1, 51), (3, 36)] },
    { ord := "62", name := "1 John", abbreviations := ["1 Jn"], testament := "NT",
      osisId := "1John", chapters := [(1, 10)] },
    { ord := "63", name := "2 John", abbreviations := [], testament := "NT",
      osisId := "2John", chapters := [(1, 13)] },
    { ord := "64", name := "3 John", abbreviations := [], testament := "NT",
      osisId := "3John", chapters := [(1, 15)] },
    { ord := "65", name := "Jude", abbreviations := [], testament := "NT",
      osisId := "Jude", chapters := [(1, 25)] } ]

/-! ### Spec-side statement of the assembly contract and concrete fixtures -/

/-- The spacing contract as the specification words it: concatenate the token
texts in order, appending a single space after every token except the last
unless that token's skip-space flag suppresses it.  This definition follows
the spec's description and is compared against the source's
`assembleTextFromTokens`. -/
def specJoinTokens : List AToken → String
  | [] => ""
  | [t] => t.text
  | t :: ts => t.text ++ (if t.skip_space_after then "" else " ") ++ specJoinTokens ts

/-- A token store for Genesis 1:1 holding one token whose exclusion flag is
set between two ordinary tokens. -/
def genTokensDb : List TokenRow :=
  [ { book_num := "01", book_name := "Genesis", chapter := 1, verse := 1,
      word_position := 1, text := "In", skip_space_after := false, exclude := false },
    { book_num := "01", book_name := "Genesis", chapter := 1, verse := 1,
      word_position := 2, text := "XX", skip_space_after := false, exclude := true },
    { book_num := "01", book_name := "Genesis", chapter := 1, verse := 1,
      word_position := 3, text := "beginning.", skip_space_after := true, exclude := false } ]

/-- The structured reference for Genesis 1:1. -/
def gen11 : BibleReference :=
  { book := "Genesis", bookId := "01", chapter := 1, verse := some 1,
    testament := "OT", osisId := "Gen" }

/-! ## Helper lemmas -/

theorem mapGet_mapSet {α : Type} (m : List (String × α)) (k k' : String) (v : α) :
    mapGet (mapSet m k v) k' = if k' = k then some v else mapGet m k' := by
  induction m with
  | nil =>
    by_cases h : k' = k
    · simp [mapSet, mapGet, h]
    · simp [mapSet, mapGet, h, Ne.symm h]
  | cons hd tl ih =>
    obtain ⟨hk, hv⟩ := hd
    by_cases h1 : hk = k
    · subst h1
      by_cases h : k' = hk
      · simp [mapSet, mapGet, h]
      · simp [mapSet, mapGet, h, Ne.symm h]
    · by_cases h2 : hk = k'
      · subst h2
        simp [mapSet, h1, mapGet, Ne.symm h1]
      · simp [mapSet, h1, mapGet, h2, ih]

theorem mapGet_mapSet_isSome {α : Type} (m : List (String × α)) (k k' : String) (v : α)
    (h : (mapGet m k').isSome) : (mapGet (mapSet m k v) k').isSome := by
  rw [mapGet_mapSet]
  split <;> simp [h]

theorem mapGet_mapSet_self {α : Type} (m : List (String × α)) (k : String) (v : α) :
    mapGet (mapSet m k v) k = some v := by
  rw [mapGet_mapSet]
  simp

theorem insertSorted_perm {α : Type} (le : α → α → Bool) (a : α) (l : List α) :
    List.Perm (insertSorted le a l) (a :: l) := by
  induction l with
  | nil => simp [insertSorted]
  | cons b l ih =>
    unfold insertSorted
    split
    · exact List.Perm.refl _
    · exact (ih.cons b).trans (List.Perm.swap a b l)

theorem insSort_perm {α : Type} (le : α → α → Bool) (l : List α) :
    List.Perm (insSort le l) l := by
  induction l with
  | nil => simp [insSort]
  | cons a l ih => exact (insertSorted_perm le a (insSort le l)).trans (ih.cons a)

theorem mem_insertSorted {α : Type} (le : α → α → Bool) (a x : α) (l : List α) :
    x ∈ insertSorted le a l ↔ x = a ∨ x ∈ l := by
  rw [(insertSorted_perm le a l).mem_iff]
  simp

theorem insertSorted_pairwise {α : Type} (le : α → α → Bool)
    (total : ∀ a b, le a b = true ∨ le b a = true)
    (htrans : ∀ a b c, le a b = true → le b c = true → le a c = true)
    (a : α) (l : List α) (hl : List.Pairwise (fun x y => le x y = true) l) :
    List.Pairwise (fun x y => le x y = true) (insertSorted le a l) := by
  induction l with
  | nil => simp [insertSorted]
  | cons b l ih =>
    unfold insertSorted
    rw [List.pairwise_cons] at hl
    split
    · rename_i hle
      refine List.Pairwise.cons ?_ (List.Pairwise.cons hl.1 hl.2)
      intro x hx
      rcases List.mem_cons.mp hx with hx | hx
      · subst hx; exact hle
      · exact htrans a b x hle (hl.1 x hx)
    · rename_i hnle
      have hba : le b a = true := by
        rcases total a b with h | h
        · exact absurd h hnle
        · exact h
      refine List.Pairwise.cons ?_ (ih hl.2)
      intro x hx
      rw [mem_insertSorted] at hx
      rcases hx with hx | hx
      · subst hx; exact hba
      · exact hl.1 x hx

theorem insSort_pairwise {α : Type} (le : α → α → Bool)
    (total : ∀ a b, le a b = true ∨ le b a = true)
    (htrans : ∀ a b c, le a b = true → le b c = true → le a c = true)
    (l : List α) :
    List.Pairwise (fun x y => le x y = true) (insSort le l) := by
  induction l with
  | nil => simp [insSort]
  | cons a l ih => exact insertSorted_pairwise le total htrans a (insSort le l) ih

theorem foldl_abbr_isSome (book : Book) (l : List String) (m : List (String × Book))
    (k : String) (h : (mapGet m k).isSome) :
    (mapGet
      (l.foldl
        (fun m abbr =>
          mapSet (mapSet m (lowerStr abbr) book) (stripDots (lowerStr abbr)) book) m)
      k).isSome := by
  induction l generalizing m with
  | nil => exact h
  | cons x xs ih =>
    exact ih _ (mapGet_mapSet_isSome _ _ _ _ (mapGet_mapSet_isSome _ _ _ _ h))

theorem foldl_abbr_strip_isSome (book : Book) (l : List String) (a : String)
    (ha : a ∈ l) (m : List (String × Book)) :
    (mapGet
      (l.foldl
        (fun m abbr =>
          mapSet (mapSet m (lowerStr abbr) book) (stripDots (lowerStr abbr)) book) m)
      (stripDots (lowerStr a))).isSome := by
  induction l generalizing m with
  | nil => cases ha
  | cons x xs ih =>
    rcases List.mem_cons.mp ha with hax | hax
    · subst hax
      exact foldl_abbr_isSome book xs _ _ (by rw [mapGet_mapSet_self]; rfl)
    · exact ih hax _

theorem addNameKeys_isSome (b : Book) (m : List (String × Book)) (k : String)
    (h : (mapGet m k).isSome) : (mapGet (addNameKeys m b) k).isSome :=
  foldl_abbr_isSome b b.abbreviations _ k (mapGet_mapSet_isSome _ _ _ _ h)

theorem addNameKeys_strip_isSome (b : Book) (m : List (String × Book)) (a : String)
    (ha : a ∈ b.abbreviations) :
    (mapGet (addNameKeys m b) (stripDots (lowerStr a))).isSome :=
  foldl_abbr_strip_isSome b b.abbreviations a ha _

theorem foldl_books_isSome (bible : List Book) (m : List (String × Book)) (k : String)
    (h : (mapGet m k).isSome) : (mapGet (bible.foldl addNameKeys m) k).isSome := by
  induction bible generalizing m with
  | nil => exact h
  | cons b bs ih => exact ih _ (addNameKeys_isSome b m k h)

theorem foldl_books_strip_isSome (bible : List Book) (b : Book) (a : String)
    (hb : b ∈ bible) (ha : a ∈ b.abbreviations) (m : List (String × Book)) :
    (mapGet (bible.foldl addNameKeys m) (stripDots (lowerStr a))).isSome := by
  induction bible generalizing m with
  | nil => cases hb
  | cons x xs ih =>
    rcases List.mem_cons.mp hb with hbx | hbx
    · subst hbx
      exact foldl_books_isSome xs _ _ (addNameKeys_strip_isSome b m a ha)
    · exact ih hbx _

set_option maxRecDepth 100000 in
theorem pad3_spec : ∀ n, n < 1000 →
    (pad3 n).length = 3 ∧ jsParseInt (pad3 n) = some (n : Int) := by decide

theorem assemble_go (n : Nat) (l : List AToken) : ∀ (k : Nat) (acc : String),
    k + l.length = n →
    (List.enumFrom k l).foldl
      (fun text p =>
        text ++ p.2.text ++
          (if p.1 < n - 1 then (if p.2.skip_space_after then "" else " ") else ""))
      acc = acc ++ specJoinTokens l := by
  induction l with
  | nil =>
    intro k acc _
    simp [List.enumFrom, specJoinTokens]
  | cons t rest ih =>
    intro k acc hk
    rw [List.enumFrom_cons, List.foldl_cons]
    cases rest with
    | nil =>
      have hlt : ¬ (k < n - 1) := by
        simp at hk
        omega
      simp [List.enumFrom, hlt, specJoinTokens, String.append_assoc]
    | cons t2 rest2 =>
      have hlt : k < n - 1 := by
        simp at hk
        omega
      rw [if_pos hlt]
      rw [ih (k + 1) _ (by simp at hk ⊢; omega)]
      show _ = acc ++ specJoinTokens (t :: t2 :: rest2)
      rw [show specJoinTokens (t :: t2 :: rest2) =
            t.text ++ (if t.skip_space_after then "" else " ") ++
              specJoinTokens (t2 :: rest2) from rfl]
      simp [String.append_assoc]

theorem assembleTextFromTokens_eq_specJoin (tokens : List AToken) :
    assembleTextFromTokens tokens = specJoinTokens tokens := by
  have h := assemble_go tokens.length tokens 0 "" (by simp)
  rw [String.empty_append] at h
  unfold assembleTextFromTokens
  rw [List.enum_eq_enumFrom]
  exact h

/-! ## Claims -/

/-- Claim C1 (code bug): on a Genesis 1:1 token store holding an excluded
token, `getEnglishText` — whose token query carries no `exclude = 0`
condition — includes the excluded token in the assembled text and computes
spacing over the raw sequence, while `getPassage` and `searchText` filter
first and then join, yielding the text the claim demands. -/
theorem getEnglishText_excluded_token_bug :
    getEnglishText genTokensDb gen11 = some "In XX beginning." ∧
    (getPassage genTokensDb gen11).map PassageVerse.text = ["In beginning."] ∧
    (searchText genTokensDb "beginning" none none 20).map SearchResult.text =
      ["In beginning."] := by decide

/-- Claim C2: `parse("1 John 1:1")` resolves to the book "1 John" (the digit
prefix is reattached to the matched book text before the catalog lookup) and
`parse("John 1:1")` resolves to "John". -/
theorem parseReference_ambiguous_aliases :
    parseReference bibleModel "1 John 1:1" =
      some { book := "1 John", bookId := "62", chapter := 1, verse := some 1,
             endVerse := none, testament := "NT", osisId := "1John" } ∧
    parseReference bibleModel "John 1:1" =
      some { book := "John", bookId := "43", chapter := 1, verse := some 1,
             endVerse := none, testament := "NT", osisId := "John" } := by decide

/-- Claim C3 (counterexample): for the candidate "jud" the aliases satisfying
the two-way prefix test are "judges" and "jude"; the shortest is "jude"
(registered for the book "Jude"), yet the fallback returns "Judges", the
first match in map iteration order — so the fallback does not select the
shortest satisfying alias. -/
theorem fallbackFind_not_shortest_cex :
    (fallbackFind (bookNameMapOf bibleModel) "jud").map Book.name = some "Judges" ∧
    ((bookNameMapOf bibleModel).filter
        (fun e => strStartsWith "jud" e.1 || strStartsWith e.1 "jud")).map Prod.fst =
      ["judges", "jude"] ∧
    (mapGet (bookNameMapOf bibleModel) "jude").map Book.name = some "Jude" ∧
    "jude".length < "judges".length := by decide

/-- Claim C3 (amended): the approximate fallback returns the book of the
first alias in catalog (map insertion) order that is a prefix of the
candidate or has the candidate as a prefix, irrespective of alias length. -/
theorem fallbackFind_first_match_in_iteration_order
    (m : List (String × Book)) (bookKey : String) :
    fallbackFind m bookKey =
      (m.find? (fun e => strStartsWith bookKey e.1 || strStartsWith e.1 bookKey)).map
        Prod.snd := by
  induction m with
  | nil => rfl
  | cons hd tl ih =>
    obtain ⟨k, v⟩ := hd
    by_cases h : (strStartsWith bookKey k || strStartsWith k bookKey) = true
    · simp [fallbackFind, List.find?, h]
    · simp only [fallbackFind, List.find?, h]
      rw [if_neg (by simp at h; simp [h])]
      simp [ih]

/-- Claim C6: `assembleTextFromTokens` concatenates token texts in order,
appending a single space after every token except the last unless that
token's skip-space flag suppresses it (the recursive `specJoinTokens`
restates exactly this), and the two worked examples of the spacing contract
hold. -/
theorem assembleTextFromTokens_spacing :
    (∀ tokens, assembleTextFromTokens tokens = specJoinTokens tokens) ∧
    assembleTextFromTokens
        [⟨"In", false⟩, ⟨"the", false⟩, ⟨"beginning.", true⟩] = "In the beginning." ∧
    assembleTextFromTokens
        [⟨"Hello", true⟩, ⟨",", false⟩, ⟨"world", true⟩] = "Hello, world" :=
  ⟨assembleTextFromTokens_eq_specJoin, by decide, by decide⟩

/-- Claim C7 (counterexample): "Gen." is a registered abbreviation of the
catalog's Genesis entry, but its punctuation-stripped variant "Gen" is not an
alternative of the matching grammar — stripped variants are added to the
alias map only, not to the pattern list. -/
theorem bookPatterns_stripped_variant_cex :
    ({ ord := "01", name := "Genesis", abbreviations := ["Gen."], testament := "OT",
       osisId := "Gen", chapters := [(1, 31), (2, 25)] } : Book) ∈ bibleModel ∧
    "Gen." ∈ bookPatternsOf bibleModel ∧ stripDots "Gen." = "Gen" ∧
    "Gen" ∉ bookPatternsOf bibleModel := by decide

/-- Claim C7 (amended): the grammar contains a literal alternative for every
canonical book name and every registered abbreviation and nothing else,
ordered longest-string-first; each abbreviation's punctuation-stripped
variant is registered in the alias lookup map instead. -/
theorem bookPatterns_contents_and_order (bible : List Book) :
    List.Pairwise (fun a b : String => b.length ≤ a.length) (bookPatternsOf bible) ∧
    (∀ p, p ∈ bookPatternsOf bible ↔
        ∃ b, b ∈ bible ∧ (p = b.name ∨ p ∈ b.abbreviations)) ∧
    (∀ b, b ∈ bible → ∀ a, a ∈ b.abbreviations →
        (mapGet (bookNameMapOf bible) (stripDots (lowerStr a))).isSome = true) := by
  refine ⟨?_, ?_, ?_⟩
  · have h := insSort_pairwise (fun a b : String => decide (b.length ≤ a.length))
      (fun a b => by rcases Nat.le_total b.length a.length with h | h <;> simp [h])
      (fun a b c hab hbc => by simp at hab hbc ⊢; omega)
      (bookPatternsRaw bible)
    exact h.imp (fun hab => by simpa using hab)
  · intro p
    unfold bookPatternsOf
    rw [(insSort_perm _ _).mem_iff]
    unfold bookPatternsRaw
    rw [List.mem_flatMap]
    simp
  · intro b hb a ha
    have := foldl_books_strip_isSome bible b a hb ha []
    unfold bookNameMapOf
    simp [this]

/-- Claim C7 witness: instantiated at the modelled catalog, the Genesis entry
and its abbreviation "Gen.". -/
theorem bookPatterns_contents_and_order_witness :
    (mapGet (bookNameMapOf bibleModel) (stripDots (lowerStr "Gen."))).isSome = true :=
  (bookPatterns_contents_and_order bibleModel).2.2
    { ord := "01", name := "Genesis", abbreviations := ["Gen."], testament := "OT",
      osisId := "Gen", chapters := [(1, 31), (2, 25)] }
    (by decide) "Gen." (by decide)

/-- Claim C9: the citation regex is not anchored, so a well-formed citation
embedded as a proper substring of unrelated text still parses to its
structured reference. -/
theorem parseReference_unanchored :
    parseReference bibleModel "xx John 3:16 yy" =
      some { book := "John", bookId := "43", chapter := 3, verse := some 16,
             endVerse := none, testament := "NT", osisId := "John" } := by decide

/-- Claim C10: for a whole-chapter reference (verse absent or 0)
`getEnglishText` returns `null` for every token store, without consulting it. -/
theorem getEnglishText_whole_chapter_none (db : List TokenRow) (r : BibleReference)
    (h : r.verse = none ∨ r.verse = some 0) : getEnglishText db r = none := by
  unfold getEnglishText
  rcases h with h | h <;> rw [if_pos (by simp [h])]

/-- Claim C10 witness: a concrete whole-chapter reference on a concrete
store. -/
theorem getEnglishText_whole_chapter_none_witness :
    getEnglishText []
      { book := "Genesis", bookId := "01", chapter := 1, verse := none,
        testament := "OT", osisId := "Gen" } = none :=
  getEnglishText_whole_chapter_none [] _ (Or.inl rfl)

/-- Claim C5: for a reference whose book ordinal is in the catalog,
`isValidReference` rejects verse 0, a verse above the chapter's maximum, an
end-verse below the verse, and a chapter that is not a key of the book's
chapter map. -/
theorem isValidReference_rejections (bible : List Book) (r : BibleReference)
    (b : Book) (hb : mapGet (bookNumberMapOf bible) r.bookId = some b) :
    (r.verse = some 0 → isValidReference bible r = false) ∧
    (∀ v mv, r.verse = some v → chLookup b.chapters r.chapter = some mv → mv < v →
      isValidReference bible r = false) ∧
    (∀ v e, r.verse = some v → r.endVerse = some e → e < v →
      isValidReference bible r = false) ∧
    (chLookup b.chapters r.chapter = none → isValidReference bible r = false) := by
  refine ⟨?_, ?_, ?_, ?_⟩
  · intro hv0
    cases hch : chLookup b.chapters r.chapter with
    | none => simp [isValidReference, hb, hch]
    | some mv => simp [isValidReference, hb, hch, hv0]
  · intro v mv hv hch hlt
    simp [isValidReference, hb, hch, hv, hlt]
  · intro v e hv he hlt
    cases hch : chLookup b.chapters r.chapter with
    | none => simp [isValidReference, hb, hch]
    | some mv => simp [isValidReference, hb, hch, hv, he, hlt]
  · intro hnone
    simp [isValidReference, hb, hnone]

/-- Claim C5 witness: a verse-0 reference on the modelled catalog is
rejected. -/
theorem isValidReference_rejections_witness :
    isValidReference bibleModel
      { book := "Genesis", bookId := "01", chapter := 1, verse := some 0,
        testament := "OT", osisId := "Gen" } = false :=
  (isValidReference_rejections bibleModel _
    { ord := "01", name := "Genesis", abbreviations := ["Gen."], testament := "OT",
      osisId := "Gen", chapters := [(1, 31), (2, 25)] }
    (by decide)).1 rfl

/-- Claim C8: `parseVerseId` fails exactly when the id is shorter than 8
characters or its first two characters are not an ordinal of the catalog;
otherwise it succeeds with the book name and testament of the catalog entry
for those two characters. -/
theorem parseVerseId_failure_conditions (bible : List Book) (id : String) :
    (parseVerseId bible id = none ↔
      id.length < 8 ∨
        mapGet (bookNumberMapOf bible) (String.mk (id.data.take 2)) = none) ∧
    (∀ b, mapGet (bookNumberMapOf bible) (String.mk (id.data.take 2)) = some b →
      8 ≤ id.length →
      ∃ r, parseVerseId bible id = some r ∧ r.book = b.name ∧
        r.testament = b.testament) := by
  by_cases hlen : id.length < 8
  · refine ⟨by simp [parseVerseId, hlen], ?_⟩
    intro b _ h8
    omega
  · constructor
    · cases hmap : mapGet (bookNumberMapOf bible) (String.mk (id.data.take 2)) with
      | none => simp [parseVerseId, hlen, hmap]
      | some bookData => simp [parseVerseId, hlen, hmap]
    · intro b hb _
      refine ⟨{ book := b.name, bookId := String.mk (id.data.take 2),
                chapter := jsParseInt ((id.data.drop 2).take 3),
                verse := jsParseInt ((id.data.drop 5).take 3),
                testament := b.testament, osisId := b.osisId }, ?_, rfl, rfl⟩
      simp [parseVerseId, hlen, hb]

/-- Claim C8 witness: the id "43003016" decodes against the modelled catalog
to a reference carrying John's name and testament. -/
theorem parseVerseId_failure_conditions_witness :
    parseVerseId bibleModel "43003016" ≠ none := by
  obtain ⟨r, hr, -, -⟩ :=
    (parseVerseId_failure_conditions bibleModel "43003016").2
      { ord := "43", name := "John", abbreviations := ["Jn"], testament := "NT",
        osisId := "John", chapters := [(1, 51), (3, 36)] }
      (by decide) (by decide)
  simp [hr]

/-- Claim C4 (counterexample): encoding a reference whose verse is present
but 0 and decoding it yields verse 1, not the original verse 0, because
`formatVerseId` computes `ref.verse || 1` and `0` is falsy. -/
theorem formatVerseId_verse_zero_cex :
    (parseVerseId bibleModel
        (formatVerseId
          { book := "Genesis", bookId := "01", chapter := 1, verse := some 0,
            testament := "OT", osisId := "Gen" })).map ParsedVerseId.verse =
      some (some (1 : Int)) ∧
    some (some (1 : Int)) ≠ some (some (0 : Int)) := by decide

/-- Claim C4 (amended): for a reference whose 2-character book ordinal is a
catalog key, whose book field is that entry's canonical name, and whose
chapter and verse (when present) are at most 999, decoding the encoded id
returns the same book name, ordinal and chapter, with the verse equal to the
original verse when present and nonzero, and equal to 1 when the verse is
absent or zero. -/
theorem parseVerseId_formatVerseId_roundtrip (bible : List Book)
    (r : BibleReference) (b : Book)
    (hb : mapGet (bookNumberMapOf bible) r.bookId = some b)
    (hname : r.book = b.name)
    (hlen : r.bookId.data.length = 2)
    (hch : r.chapter ≤ 999)
    (hv : ∀ v, r.verse = some v → v ≤ 999) :
    parseVerseId bible (formatVerseId r) =
      some { book := r.book, bookId := r.bookId,
             chapter := some (r.chapter : Int),
             verse := some (jsVerseOrOne r.verse : Int),
             testament := b.testament, osisId := b.osisId } := by
  have hvle : jsVerseOrOne r.verse ≤ 999 := by
    cases hvv : r.verse with
    | none => simp [jsVerseOrOne, hvv]
    | some v =>
      have := hv v hvv
      simp only [jsVerseOrOne, hvv]
      split <;> omega
  have hc := pad3_spec r.chapter (by omega)
  have hw := pad3_spec (jsVerseOrOne r.verse) (by omega)
  have hdata : (formatVerseId r).data =
      r.bookId.data ++ pad3 r.chapter ++ pad3 (jsVerseOrOne r.verse) := rfl
  have hlen8 : (formatVerseId r).length = 8 := by
    show (formatVerseId r).data.length = 8
    rw [hdata]
    simp [hlen, hc.1, hw.1]
  have htake2 :
      (formatVerseId r).data.take 2 = r.bookId.data := by
    rw [hdata, List.append_assoc, List.take_left' hlen]
  have hdrop2 :
      (formatVerseId r).data.drop 2 =
        pad3 r.chapter ++ pad3 (jsVerseOrOne r.verse) := by
    rw [hdata, List.append_assoc, List.drop_left' hlen]
  have hdrop5 :
      (formatVerseId r).data.drop 5 = pad3 (jsVerseOrOne r.verse) := by
    rw [hdata]
    exact List.drop_left' (by simp [hlen, hc.1])
  have hmk : String.mk r.bookId.data = r.bookId := rfl
  simp only [parseVerseId, hlen8, htake2, hdrop2, hdrop5, hmk, hb]
  rw [if_neg (by omega)]
  rw [List.take_left' hc.1]
  rw [List.take_of_length_le (by rw [hw.1])]
  rw [hc.2, hw.2, hname]

/-- Claim C4 witness: the amended round trip at John 3:16 on the modelled
catalog. -/
theorem parseVerseId_formatVerseId_roundtrip_witness :
    parseVerseId bibleModel
      (formatVerseId
        { book := "John", bookId := "43", chapter := 3, verse := some 16,
          testament := "NT", osisId := "John" }) =
      some { book := "John", bookId := "43", chapter := some (3 : Int),
             verse := some (16 : Int), testament := "NT", osisId := "John" } :=
  parseVerseId_formatVerseId_roundtrip bibleModel
    { book := "John", bookId := "43", chapter := 3, verse := some 16,
      testament := "NT", osisId := "John" }
    { ord := "43", name := "John", abbreviations := ["Jn"], testament := "NT",
      osisId := "John", chapters := [(1, 51), (3, 36)] }
    (by decide) rfl (by decide) (by decide)
    (fun v hv => by simp at hv; omega)

end BibleMCP
